import Mathlib

/-!
# Verification of the bookmark-manager folder cache, flatten and action logic

A shallow embedding of `src/static/bookmarks.js`.  Pure string manipulation is
modelled over `List Char` (the `.data` of a `String`), because the JavaScript
string primitives used by the code (`toLowerCase`, `trim`, `startsWith`,
`includes`, `localeCompare`) operate on character sequences.  Host-provided
capabilities (the bookmark tree fetch, the key/value store, tab queries and the
fallibility of host calls) are passed in explicitly as inputs, so each
JavaScript function becomes a pure state-transformer.
-/

namespace BookmarkManager

open scoped List

/-- ASCII lower-casing of one character; models the behaviour of
JavaScript `toLowerCase` on the ASCII range. -/
def charLower (c : Char) : Char :=
  if c.isUpper then Char.ofNat (c.toNat + 32) else c

/-- Modelled from the spec: host `String.prototype.toLowerCase` (the host string
library is not part of the repository).  ASCII-faithful. -/
def toLowerStr (s : String) : String :=
  ⟨s.data.map charLower⟩

/-- Modelled from the spec: host `String.prototype.trim` (whitespace removal at
both ends). -/
def trimStr (s : String) : String :=
  ⟨((s.data.dropWhile Char.isWhitespace).reverse.dropWhile Char.isWhitespace).reverse⟩

/-- Is `p` a (contiguous) leading segment of `s`?  Models
`String.prototype.startsWith`, with the pattern as first argument. -/
def isPre : List Char → List Char → Bool
  | [], _ => true
  | _ :: _, [] => false
  | a :: as, b :: bs => a == b && isPre as bs

/-- Modelled from the spec: host `String.prototype.startsWith`. -/
def strStartsWith (s pat : String) : Bool :=
  isPre pat.data s.data

/-- Does `text` contain `pat` as a contiguous substring?  Models
`String.prototype.includes`. -/
def containsSub (text pat : List Char) : Bool :=
  match text with
  | [] => isPre pat []
  | _ :: rest => isPre pat text || containsSub rest pat

/-- Modelled from the spec: host `String.prototype.includes`. -/
def jsIncludes (s pat : String) : Bool :=
  containsSub s.data pat.data

/-- Strict lexicographic order on character lists (by code point). -/
def lexLt : List Char → List Char → Bool
  | [], [] => false
  | [], _ :: _ => true
  | _ :: _, [] => false
  | a :: as, b :: bs => if a < b then true else if b < a then false else lexLt as bs

/-- The case channel of a character used as a collation tie-breaker:
lower case sorts before upper case. -/
def caseMark (c : Char) : Char :=
  if c.isUpper then 'B' else 'A'

/-- The collation key of a string: primary key is the lower-cased character
sequence, the secondary key records the case pattern. -/
def sortKey (s : String) : List Char × List Char :=
  (s.data.map charLower, s.data.map caseMark)

/-- Strict order on collation keys: primary (case-insensitive) comparison
first, case pattern as tie-breaker. -/
def keyLt (a b : List Char × List Char) : Bool :=
  lexLt a.1 b.1 || (a.1 == b.1 && lexLt a.2 b.2)

/-- Modelled from the spec: the host `String.prototype.localeCompare` used by
the sibling sort (the collation engine is host-provided, not in the
repository).  The spec describes it as a case-insensitive comparison; the
default English collation compares case-insensitively first and breaks ties by
case pattern (lower case first).  Faithful on ASCII titles. -/
def localeCompare (a b : String) : Int :=
  if keyLt (sortKey a) (sortKey b) then -1
  else if keyLt (sortKey b) (sortKey a) then 1
  else 0

/-- One flattened folder entry `{id, title, depth}` as produced by
`getFullFolderHierarchy` (spec: `FolderRecord`). -/
structure FolderRecord where
  id : String
  title : String
  depth : Nat
deriving Repr, DecidableEq

/-- A node of the host bookmark tree: `{id, title, url?, children}`.
Absence of `url` denotes a folder (spec §6, Tree Provider). -/
inductive BNode where
  | node (id : String) (title : String) (url : Option String) (children : List BNode)

/-- The node's identifier. -/
def BNode.id : BNode → String
  | .node i _ _ _ => i

/-- The node's title. -/
def BNode.title : BNode → String
  | .node _ t _ _ => t

/-- The node's optional URL. -/
def BNode.url : BNode → Option String
  | .node _ _ u _ => u

/-- The node's children. -/
def BNode.children : BNode → List BNode
  | .node _ _ _ c => c

/-- JavaScript truthiness of an optional string: absent and `""` are falsy. -/
def jsTruthy : Option String → Bool
  | none => false
  | some s => s ≠ ""

/-- The folder test of `processNodes` (line 126): `!node.url && node.title`,
i.e. the URL is falsy and the title is a non-empty string. -/
def BNode.isFolderish (n : BNode) : Bool :=
  !jsTruthy n.url && n.title ≠ ""

/-- The sibling comparator of `processNodes` (line 120):
`(a.title || "").localeCompare(b.title || "")`; on our model titles are always
strings, so `|| ""` is the identity.  `nodeLe a b` says the comparator result
is `≤ 0`; `Array.prototype.sort` is specified to be stable, which the stable
`List.mergeSort` with this `le` models. -/
def nodeLe (a b : BNode) : Bool :=
  localeCompare a.title b.title ≤ 0

mutual

/-- Size of a node (for termination of the tree traversal). -/
def nodeSize : BNode → Nat
  | .node _ _ _ c => 1 + forestSize c

/-- Size of a forest. -/
def forestSize : List BNode → Nat
  | [] => 0
  | n :: rest => nodeSize n + forestSize rest

end

mutual

/-- The recursive flatten helper of `getFullFolderHierarchy`
(`processNodes`, lines 114-134 of `bookmarks.js`): sort the level by the title
comparator, then walk the sorted nodes.  (The source first filters out
non-object entries; every entry of a host tree is an object, so the filter is
the identity here.) -/
def processNodes (nodes : List BNode) (currentDepth : Nat) : List FolderRecord :=
  processSorted (nodes.mergeSort nodeLe) currentDepth
termination_by (forestSize nodes, 1)
decreasing_by
  have hsum : ∀ l : List BNode, forestSize l = (l.map nodeSize).sum := fun l => by
    induction l with
    | nil => simp [forestSize]
    | cons n rest ih => simp [forestSize, ih]
  have hperm : forestSize (nodes.mergeSort nodeLe) = forestSize nodes := by
    rw [hsum, hsum]; exact ((nodes.mergeSort_perm nodeLe).map nodeSize).sum_eq
  simp only [hperm]
  exact Prod.Lex.right _ Nat.zero_lt_one

/-- The `for (const node of sortedNodes)` loop of `processNodes`: a folder node
(falsy URL, non-empty title) contributes a record at the current depth followed
by the flattening of its children one level deeper; any other node contributes
nothing and its subtree is not visited. -/
def processSorted (sortedNodes : List BNode) (currentDepth : Nat) : List FolderRecord :=
  match sortedNodes with
  | [] => []
  | n :: rest =>
    (if n.isFolderish then
      ⟨n.id, n.title, currentDepth⟩ ::
        (if n.children.length > 0 then processNodes n.children (currentDepth + 1) else [])
    else []) ++ processSorted rest currentDepth
termination_by (forestSize sortedNodes, 0)
decreasing_by
  · apply Prod.Lex.left
    cases n with
    | node i t u c => simp only [BNode.children, forestSize, nodeSize]; omega
  · apply Prod.Lex.left
    cases n with
    | node i t u c => simp only [forestSize, nodeSize]; omega

end

mutual

/-- All identifiers of a node's subtree (the node itself first). -/
def nodeIds : BNode → List String
  | .node i _ _ c => i :: forestIds c

/-- All identifiers occurring in a forest. -/
def forestIds : List BNode → List String
  | [] => []
  | n :: rest => nodeIds n ++ forestIds rest

end

/-- The children lists the flatten traversal visits: `CtxAt t C d` holds when
`C` is a sibling list reached at depth `d` starting from the forest `t` — `t`
itself (the root's children) at depth 0, and the children of every folder node
of a reached context one level deeper.  The traversal of `processNodes` does
not descend below nodes that fail the folder test. -/
inductive CtxAt : List BNode → List BNode → Nat → Prop where
  | root (t : List BNode) : CtxAt t t 0
  | child {t C d} (n : BNode) : CtxAt t C d → n ∈ C → n.isFolderish = true →
      CtxAt t n.children (d + 1)

/-! ## The folder-hierarchy cache (`getFullFolderHierarchy`, lines 72-181) -/

/-- `CACHE_DURATION_MS` (line 57): 30 minutes. -/
def CACHE_DURATION_MS : Nat := 30 * 60 * 1000

/-- The two `chrome.storage.local` keys holding the cache (spec: `CacheEntry`).
`none` models an absent key. -/
structure LocalStore where
  cachedFolders : Option (List FolderRecord)
  cachedTimestamp : Option Nat
deriving Repr, DecidableEq

/-- The module-level mutable variables `globalFlatFolderList` and
`globalFolderTitleMap` (lines 61-62).  `none` models JavaScript `null`; the
`Map` is modelled by its underlying association sequence. -/
structure Globals where
  flatFolderList : Option (List FolderRecord)
  folderTitleMap : Option (List (String × String))
deriving Repr, DecidableEq

/-- `new Map(list.map(f => [f.id, f.title]))` (lines 90 and 166); the spec's
`buildIndex`. -/
def buildIndex (l : List FolderRecord) : List (String × String) :=
  l.map fun f => (f.id, f.title)

/-- The host-call outcomes one `getFullFolderHierarchy` invocation can
observe: whether the cache read succeeds (line 79's `try`), what the tree
fetch yields (line 139; `Except.error` models a rejected promise), and whether
the cache write (line 157) succeeds. -/
structure HostFetch where
  cacheReadOk : Bool
  tree : Except Unit (List BNode)
  writeOk : Bool

/-- What one `getFullFolderHierarchy` call produces: the returned list, the
updated side store and globals, how many `getTree` fetches it performed, and
the `showFeedback` messages it emitted (message text, isError flag). -/
structure GFFHResult where
  ret : List FolderRecord
  store : LocalStore
  globals : Globals
  treeFetches : Nat
  feedback : List (String × Bool)
deriving Repr, DecidableEq

/-- The cache-hit test (lines 77-96): not forced, the storage read succeeded,
both keys are truthy (an absent key is `undefined`, a `0` timestamp is falsy)
and `Date.now() - timestamp < CACHE_DURATION_MS`.  Returns the cached list on
a hit. -/
def cacheLookup (forceRefresh : Bool) (now : Nat) (host : HostFetch)
    (st : LocalStore) : Option (List FolderRecord) :=
  if forceRefresh then none
  else if !host.cacheReadOk then none
  else
    match st.cachedFolders, st.cachedTimestamp with
    | some folders, some ts =>
        if ts ≠ 0 && now - ts < CACHE_DURATION_MS then some folders else none
    | _, _ => none

/-- Lines 87-94 and 163-170: set both globals from a folder list (the title
map is rebuilt from the list; the empty case uses `new Map()`, which equals
`buildIndex []`). -/
def setGlobalsFrom (folders : List FolderRecord) : Globals :=
  { flatFolderList := some folders
    folderTitleMap := some (if folders.length > 0 then buildIndex folders else []) }

/-- `getFullFolderHierarchy` (lines 72-181) as a state transformer.  On a
cache hit it returns the stored list; otherwise it fetches the tree once:
a rejected fetch is caught (line 171), shows an error feedback and returns
`[]` with the globals emptied and nothing written; an empty tree returns `[]`
(line 144) without writing; otherwise the root's children are flattened, the
new list and a fresh timestamp overwrite the stored entry (lines 157-160, if
the write rejects the outer catch applies), the globals are updated and the
list is returned. -/
def getFullFolderHierarchy (forceRefresh : Bool) (now : Nat) (host : HostFetch)
    (st : LocalStore) : GFFHResult :=
  match cacheLookup forceRefresh now host st with
  | some folders =>
      { ret := folders, store := st, globals := setGlobalsFrom folders
        treeFetches := 0, feedback := [] }
  | none =>
      match host.tree with
      | .error _ =>
          { ret := [], store := st
            globals := { flatFolderList := some [], folderTitleMap := some [] }
            treeFetches := 1
            feedback := [("Error loading folder hierarchy.", true)] }
      | .ok treeNodes =>
          match treeNodes with
          | [] =>
              { ret := [], store := st
                globals := { flatFolderList := some [], folderTitleMap := some [] }
                treeFetches := 1, feedback := [] }
          | root :: _ =>
              let flat := processNodes root.children 0
              if host.writeOk then
                { ret := flat
                  store := { cachedFolders := some flat, cachedTimestamp := some now }
                  globals := setGlobalsFrom flat
                  treeFetches := 1, feedback := [] }
              else
                { ret := [], store := st
                  globals := { flatFolderList := some [], folderTitleMap := some [] }
                  treeFetches := 1
                  feedback := [("Error loading folder hierarchy.", true)] }

/-! ## The bookmark store and the action dispatcher -/

/-- A host bookmark entry (spec: `BookmarkRef`).  The host assigns fresh
numeric ids on creation. -/
structure BookmarkRef where
  id : Nat
  parentId : String
  title : String
  url : String
deriving Repr, DecidableEq

/-- The host bookmark store: the entries plus the next fresh id. -/
structure BookmarkStore where
  bookmarks : List BookmarkRef
  nextId : Nat
deriving Repr, DecidableEq

/-- `chrome.bookmarks.search({url})`: all entries with exactly that URL
(spec §4.3, the Locator's host URL search). -/
def searchByUrl (s : BookmarkStore) (url : String) : List BookmarkRef :=
  s.bookmarks.filter fun b => b.url == url

/-- `chrome.bookmarks.create({parentId, title, url})`. -/
def createBookmark (s : BookmarkStore) (parentId title url : String) : BookmarkStore :=
  { bookmarks := s.bookmarks ++ [⟨s.nextId, parentId, title, url⟩]
    nextId := s.nextId + 1 }

/-- `chrome.bookmarks.remove(id)`. -/
def removeBookmark (s : BookmarkStore) (id : Nat) : BookmarkStore :=
  { s with bookmarks := s.bookmarks.filter fun b => b.id ≠ id }

/-- `chrome.bookmarks.move(id, {parentId})`: reparent in place. -/
def moveBookmarkRef (s : BookmarkStore) (id : Nat) (newParent : String) : BookmarkStore :=
  { s with bookmarks := s.bookmarks.map fun b =>
      if b.id == id then { b with parentId := newParent } else b }

/-- How many bookmarks with the given URL live in the given folder. -/
def countPair (s : BookmarkStore) (url folderId : String) : Nat :=
  (s.bookmarks.filter fun b => b.url == url && b.parentId == folderId).length

/-- A browser tab as the dispatcher sees it: `{url?, title}`. -/
structure Tab where
  url : Option String
  title : String
deriving Repr, DecidableEq

/-- What processing one tab did. -/
inductive TabOutcome where
  | success
  | alreadyExists
  | notFound
  | failed
deriving Repr, DecidableEq

/-- One iteration of the `saveBookmark` loop (lines 499-527): skip tabs whose
URL is falsy or not `http:`/`https:` (counted as errors); otherwise search the
store by URL, and if some match already lies in the target folder count
"already exists", else create `{parentId: folder, title: tab.title || tab.url,
url: tab.url}`.  `createOk` is the host outcome of the `create` call (a
rejection is caught per tab and counted as an error). -/
def saveTabStep (folderId : String) (createOk : Bool) (s : BookmarkStore)
    (tab : Tab) : BookmarkStore × TabOutcome :=
  match tab.url with
  | none => (s, .failed)
  | some u =>
      if !strStartsWith u "http:" && !strStartsWith u "https:" then (s, .failed)
      else if (searchByUrl s u).any (fun bm => bm.parentId == folderId) then
        (s, .alreadyExists)
      else if createOk then
        (createBookmark s folderId (if tab.title == "" then u else tab.title) u, .success)
      else (s, .failed)

/-- Result of a batch loop: final store plus the accumulated tally. -/
structure BatchResult where
  store : BookmarkStore
  success : Nat
  alreadyExists : Nat
  notFound : Nat
  errors : Nat
deriving Repr, DecidableEq

/-- Add one outcome to a tally. -/
def BatchResult.bump (r : BatchResult) : TabOutcome → BatchResult
  | .success => { r with success := r.success + 1 }
  | .alreadyExists => { r with alreadyExists := r.alreadyExists + 1 }
  | .notFound => { r with notFound := r.notFound + 1 }
  | .failed => { r with errors := r.errors + 1 }

/-- The `for (const currentTab of tabsToProcess)` loop of `saveBookmark`
(lines 499-527); `hostOk i` is the host outcome of the `create` call for the
i-th tab. -/
def saveBookmark (folderId : String) (hostOk : Nat → Bool) (tabs : List Tab)
    (i : Nat) (s : BookmarkStore) : BatchResult :=
  match tabs with
  | [] => ⟨s, 0, 0, 0, 0⟩
  | tab :: rest =>
      match saveTabStep folderId (hostOk i) s tab with
      | (s2, outcome) => (saveBookmark folderId hostOk rest (i + 1) s2).bump outcome

/-- One iteration of the `deleteBookmark` loop (lines 616-639): a tab without
a URL is an error; otherwise the first URL match whose parent is the source
folder is removed (a host rejection is caught and counted as an error), and
"not found" is counted when there is none. -/
def deleteTabStep (fromFolderId : String) (removeOk : Bool) (s : BookmarkStore)
    (tab : Tab) : BookmarkStore × TabOutcome :=
  match tab.url with
  | none => (s, .failed)
  | some u =>
      match (searchByUrl s u).find? (fun b => b.parentId == fromFolderId) with
      | some bm => if removeOk then (removeBookmark s bm.id, .success) else (s, .failed)
      | none => (s, .notFound)

/-- The `for (const currentTab of tabsToProcess)` loop of `deleteBookmark`
(lines 616-639). -/
def deleteBookmark (fromFolderId : String) (hostOk : Nat → Bool) (tabs : List Tab)
    (i : Nat) (s : BookmarkStore) : BatchResult :=
  match tabs with
  | [] => ⟨s, 0, 0, 0, 0⟩
  | tab :: rest =>
      match deleteTabStep fromFolderId (hostOk i) s tab with
      | (s2, outcome) => (deleteBookmark fromFolderId hostOk rest (i + 1) s2).bump outcome

/-- One iteration of the `moveBookmark` loop (lines 708-734): like the delete
lookup, but the found entry is reparented to the destination folder. -/
def moveTabStep (fromFolderId toFolderId : String) (moveOk : Bool)
    (s : BookmarkStore) (tab : Tab) : BookmarkStore × TabOutcome :=
  match tab.url with
  | none => (s, .failed)
  | some u =>
      match (searchByUrl s u).find? (fun b => b.parentId == fromFolderId) with
      | some bm =>
          if moveOk then (moveBookmarkRef s bm.id toFolderId, .success) else (s, .failed)
      | none => (s, .notFound)

/-- The `for (const currentTab of tabsToProcess)` loop of `moveBookmark`
(lines 708-734). -/
def moveTabs (fromFolderId toFolderId : String) (hostOk : Nat → Bool)
    (tabs : List Tab) (i : Nat) (s : BookmarkStore) : BatchResult :=
  match tabs with
  | [] => ⟨s, 0, 0, 0, 0⟩
  | tab :: rest =>
      match moveTabStep fromFolderId toFolderId (hostOk i) s tab with
      | (s2, outcome) => (moveTabs fromFolderId toFolderId hostOk rest (i + 1) s2).bump outcome

/-- Result of a whole `moveBookmark` invocation: the batch result, the number
of host bookmark mutations attempted, and the feedback messages
(text, isError). -/
structure MoveResult where
  batch : BatchResult
  hostMutations : Nat
  feedback : List (String × Bool)
deriving Repr, DecidableEq

/-- Count the host `chrome.bookmarks.move` calls the loop performs: one per
tab whose URL lookup finds an entry in the source folder (line 720), whether
or not the host accepts it. -/
def moveHostCalls (fromFolderId toFolderId : String) (hostOk : Nat → Bool) :
    List Tab → Nat → BookmarkStore → Nat
  | [], _, _ => 0
  | tab :: rest, i, s =>
      let attempted : Nat :=
        match tab.url with
        | none => 0
        | some u =>
            match (searchByUrl s u).find? (fun b => b.parentId == fromFolderId) with
            | some _ => 1
            | none => 0
      attempted +
        moveHostCalls fromFolderId toFolderId hostOk rest (i + 1)
          (moveTabStep fromFolderId toFolderId (hostOk i) s tab).1

/-- `moveBookmark` (lines 659-748) after both selections are validated: when
source and destination ids coincide it stops with the informational feedback
`"Source and destination are same."` (line 692, `isError = false`) before any
tab is queried or any host mutation is attempted; otherwise it runs the move
loop over the highlighted tabs. -/
def moveBookmark (fromFolderId toFolderId : String) (hostOk : Nat → Bool)
    (tabs : List Tab) (s : BookmarkStore) : MoveResult :=
  if fromFolderId == toFolderId then
    { batch := ⟨s, 0, 0, 0, 0⟩, hostMutations := 0
      feedback := [("Source and destination are same.", false)] }
  else
    { batch := moveTabs fromFolderId toFolderId hostOk tabs 0 s
      hostMutations := moveHostCalls fromFolderId toFolderId hostOk tabs 0 s
      feedback := [] }

/-! ## Folder-scoped search (`searchBookmarkFolder`, lines 344-420) -/

/-- A direct child of a folder as `chrome.bookmarks.getChildren` returns it:
a bookmark (with a URL) or a sub-folder (without). -/
structure Child where
  id : Nat
  title : String
  url : Option String
deriving Repr, DecidableEq

/-- The filtering core of `searchBookmarkFolder` (lines 367 and 381-385):
the search term is the lower-cased, trimmed input; with a non-empty term keep
the URL-bearing children whose lower-cased title contains it, otherwise keep
every URL-bearing child.  `filter` preserves the host-returned child order. -/
def searchBookmarkFolder (children : List Child) (searchInput : String) : List Child :=
  let searchTerm := trimStr (toLowerStr searchInput)
  if searchTerm ≠ "" then
    children.filter fun b => jsTruthy b.url && jsIncludes (toLowerStr b.title) searchTerm
  else
    children.filter fun b => jsTruthy b.url

/-- Result of the bulk open/delete loop of `bkmOptionMonitor`: the store, the
URLs opened in background tabs, and the success count shown in the
`Opened/Deleted m/n` tally; `errors` counts the caught per-item failures. -/
structure BulkResult where
  store : BookmarkStore
  opened : List String
  success : Nat
  errors : Nat
deriving Repr, DecidableEq

/-- An entry of the captured search-result snapshot handed to
`bkmOptionMonitor` (`{id, url, title}`, line 412). -/
structure BulkItem where
  id : Nat
  url : String
  title : String
deriving Repr, DecidableEq

/-- The `for (const bkm of bookmarksDetails)` loop of `bkmOptionMonitor`
(lines 444-456): open each snapshot entry in a background tab, or remove each
by id; a failure is caught, reported and the loop continues with the next
item.  `hostOk i` is the host outcome for the i-th item. -/
def bkmOptionMonitor (isOpening : Bool) (hostOk : Nat → Bool) :
    List BulkItem → Nat → BookmarkStore → BulkResult
  | [], _, s => ⟨s, [], 0, 0⟩
  | bkm :: rest, i, s =>
      if isOpening then
        let r := bkmOptionMonitor isOpening hostOk rest (i + 1) s
        { r with opened := bkm.url :: r.opened, success := r.success + 1 }
      else if hostOk i then
        let r := bkmOptionMonitor isOpening hostOk rest (i + 1) (removeBookmark s bkm.id)
        { r with success := r.success + 1 }
      else
        let r := bkmOptionMonitor isOpening hostOk rest (i + 1) s
        { r with errors := r.errors + 1 }

/-! # Theorems -/

/-- `setGlobalsFrom` always stores the index derived from the list (the
`length > 0` test only avoids `new Map([])`, which equals `new Map()`). -/
theorem setGlobalsFrom_eq (l : List FolderRecord) :
    setGlobalsFrom l =
      { flatFolderList := some l, folderTitleMap := some (buildIndex l) } := by
  cases l with
  | nil => simp [setGlobalsFrom, buildIndex]
  | cons f rest => simp [setGlobalsFrom]

/-- C10: on every return path of `getFullFolderHierarchy` (cache hit, fresh
fetch, empty tree, fetch error, failed cache write) the global folder title
map is non-null and is exactly the id-to-title index derived from the global
flat folder list, which is also the list returned to the caller. -/
theorem C10_globals_consistent (forceRefresh : Bool) (now : Nat)
    (host : HostFetch) (st : LocalStore) :
    (getFullFolderHierarchy forceRefresh now host st).globals.flatFolderList =
      some (getFullFolderHierarchy forceRefresh now host st).ret ∧
    (getFullFolderHierarchy forceRefresh now host st).globals.folderTitleMap =
      some (buildIndex (getFullFolderHierarchy forceRefresh now host st).ret) := by
  unfold getFullFolderHierarchy
  cases cacheLookup forceRefresh now host st with
  | some folders => simp [setGlobalsFrom_eq]
  | none =>
      cases host.tree with
      | error e => simp [buildIndex]
      | ok treeNodes =>
          cases treeNodes with
          | nil => simp [buildIndex]
          | cons root rest =>
              by_cases hw : host.writeOk = true <;> simp [hw, setGlobalsFrom_eq, buildIndex]

/-- C7: folder-scoped search equals a single filter over the host-returned
children: it keeps exactly the URL-bearing children (all of them when the
trimmed lower-cased keyword is empty, those whose lower-cased title contains
the keyword otherwise), and, being a filter, it preserves the host-returned
child order (the result is a sublist of the children). -/
theorem C7_folder_search (children : List Child) (searchInput : String) :
    searchBookmarkFolder children searchInput =
      children.filter (fun b => jsTruthy b.url &&
        (trimStr (toLowerStr searchInput) == "" ||
          jsIncludes (toLowerStr b.title) (trimStr (toLowerStr searchInput)))) ∧
    searchBookmarkFolder children searchInput <+ children := by
  constructor
  · by_cases h : trimStr (toLowerStr searchInput) = ""
    · simp [searchBookmarkFolder, h]
    · have hbeq : (trimStr (toLowerStr searchInput) == "") = false := by simpa using h
      simp [searchBookmarkFolder, h, hbeq]
  · by_cases h : trimStr (toLowerStr searchInput) = "" <;>
      simp [searchBookmarkFolder, h, List.filter_sublist]

/-- C8: when the move action's source folder id equals its destination id the
action stops as an informational no-op: the feedback is the non-error
`"Source and destination are same."` message, no host `move` call is made and
the bookmark store is unchanged (zero items processed). -/
theorem C8_move_same_folder_noop (fromFolderId toFolderId : String)
    (hostOk : Nat → Bool) (tabs : List Tab) (s : BookmarkStore)
    (h : fromFolderId = toFolderId) :
    moveBookmark fromFolderId toFolderId hostOk tabs s =
      { batch := ⟨s, 0, 0, 0, 0⟩, hostMutations := 0
        feedback := [("Source and destination are same.", false)] } := by
  unfold moveBookmark
  simp [h]

/-- C8 witness. -/
theorem C8_move_same_folder_noop_witness :
    moveBookmark "7" "7" (fun _ => true) [⟨some "http://a", "A"⟩]
        ⟨[⟨1, "7", "A", "http://a"⟩], 2⟩ =
      { batch := ⟨⟨[⟨1, "7", "A", "http://a"⟩], 2⟩, 0, 0, 0, 0⟩, hostMutations := 0
        feedback := [("Source and destination are same.", false)] } :=
  C8_move_same_folder_noop "7" "7" (fun _ => true) [⟨some "http://a", "A"⟩]
    ⟨[⟨1, "7", "A", "http://a"⟩], 2⟩ rfl

/-- A cache hit returns the stored list with no fetch, no write and no
feedback. -/
theorem getFullFolderHierarchy_hit (forceRefresh : Bool) (now : Nat)
    (host : HostFetch) (st : LocalStore) (folders : List FolderRecord)
    (hc : cacheLookup forceRefresh now host st = some folders) :
    getFullFolderHierarchy forceRefresh now host st =
      { ret := folders, store := st, globals := setGlobalsFrom folders
        treeFetches := 0, feedback := [] } := by
  simp [getFullFolderHierarchy, hc]

/-- C3 counterexample: starting from a pre-existing fresh cache entry, two
`getHierarchy(false)` calls within the TTL are both cache hits and perform
zero underlying tree fetches — not "exactly one" as the claim states. -/
theorem C3_cex :
    ¬ ((getFullFolderHierarchy false 1 ⟨true, .ok [], true⟩
          ⟨some [⟨"1", "Bookmarks bar", 0⟩], some 1⟩).treeFetches +
        (getFullFolderHierarchy false 1 ⟨true, .ok [], true⟩
          (getFullFolderHierarchy false 1 ⟨true, .ok [], true⟩
            ⟨some [⟨"1", "Bookmarks bar", 0⟩], some 1⟩).store).treeFetches = 1) := by
  decide

/-- C3 (amended): (i) a `getHierarchy(false)` call that finds a stored cache
entry whose timestamp is truthy and fresh (`now - fetchedAt < TTL`) returns
that entry's folder list unchanged, leaves the store untouched and performs no
tree fetch; (ii) two `getHierarchy(false)` calls of which the first finds no
stored entry and fetches successfully at a nonzero time, the second falling
within the TTL of the first, perform exactly one underlying tree fetch
between them.  (As frozen, "exactly one fetch" fails when both calls hit a
pre-existing fresh entry — see the counterexample.) -/
theorem C3_cache_hit_single_fetch (now1 now2 : Nat) (host1 host2 : HostFetch)
    (st : LocalStore) :
    (∀ folders ts, st.cachedFolders = some folders → st.cachedTimestamp = some ts →
      host1.cacheReadOk = true → ts ≠ 0 → now1 - ts < CACHE_DURATION_MS →
      (getFullFolderHierarchy false now1 host1 st).ret = folders ∧
      (getFullFolderHierarchy false now1 host1 st).store = st ∧
      (getFullFolderHierarchy false now1 host1 st).treeFetches = 0) ∧
    (∀ root rest, st.cachedFolders = none → host1.tree = .ok (root :: rest) →
      host1.writeOk = true → 0 < now1 → now2 - now1 < CACHE_DURATION_MS →
      host2.cacheReadOk = true →
      (getFullFolderHierarchy false now1 host1 st).treeFetches +
        (getFullFolderHierarchy false now2 host2
          (getFullFolderHierarchy false now1 host1 st).store).treeFetches = 1) := by
  constructor
  · intro folders ts hf ht hr h0 hlt
    have hc : cacheLookup false now1 host1 st = some folders := by
      simp [cacheLookup, hf, ht, hr, h0, hlt]
    simp [getFullFolderHierarchy, hc]
  · intro root rest hf htree hw h0 hlt hr2
    have hc1 : cacheLookup false now1 host1 st = none := by
      simp [cacheLookup, hf]
    have e1 : (getFullFolderHierarchy false now1 host1 st).store =
        { cachedFolders := some (processNodes root.children 0)
          cachedTimestamp := some now1 } ∧
        (getFullFolderHierarchy false now1 host1 st).treeFetches = 1 := by
      simp [getFullFolderHierarchy, hc1, htree, hw]
    have hc2 : cacheLookup false now2 host2
        (getFullFolderHierarchy false now1 host1 st).store =
          some (processNodes root.children 0) := by
      rw [e1.1]
      have h0' : now1 ≠ 0 := Nat.pos_iff_ne_zero.mp h0
      simp [cacheLookup, hr2, h0', hlt]
    rw [e1.2, getFullFolderHierarchy_hit _ _ _ _ _ hc2]
    rfl

/-- C3 witness. -/
theorem C3_cache_hit_single_fetch_witness :
    ((⟨some [⟨"1", "B", 0⟩], some 5⟩ : LocalStore).cachedFolders = some [⟨"1", "B", 0⟩] ∧
      (⟨some [⟨"1", "B", 0⟩], some 5⟩ : LocalStore).cachedTimestamp = some 5 ∧
      (HostFetch.mk true (.ok []) true).cacheReadOk = true ∧ (5 : Nat) ≠ 0 ∧
      10 - 5 < CACHE_DURATION_MS) ∧
    ((getFullFolderHierarchy false 10 ⟨true, .ok [], true⟩
        ⟨some [⟨"1", "B", 0⟩], some 5⟩).ret = [⟨"1", "B", 0⟩] ∧
      (getFullFolderHierarchy false 10 ⟨true, .ok [], true⟩
        ⟨some [⟨"1", "B", 0⟩], some 5⟩).store = ⟨some [⟨"1", "B", 0⟩], some 5⟩ ∧
      (getFullFolderHierarchy false 10 ⟨true, .ok [], true⟩
        ⟨some [⟨"1", "B", 0⟩], some 5⟩).treeFetches = 0) ∧
    ((getFullFolderHierarchy false 7 ⟨true, .ok [BNode.node "0" "" none []], true⟩
        ⟨none, none⟩).treeFetches +
      (getFullFolderHierarchy false 9 ⟨true, .ok [], true⟩
        (getFullFolderHierarchy false 7 ⟨true, .ok [BNode.node "0" "" none []], true⟩
          ⟨none, none⟩).store).treeFetches = 1) :=
  ⟨by decide,
    (C3_cache_hit_single_fetch 10 10 ⟨true, .ok [], true⟩ ⟨true, .ok [], true⟩
      ⟨some [⟨"1", "B", 0⟩], some 5⟩).1 [⟨"1", "B", 0⟩] 5 rfl rfl rfl (by decide) (by decide),
    (C3_cache_hit_single_fetch 7 9 ⟨true, .ok [BNode.node "0" "" none []], true⟩
      ⟨true, .ok [], true⟩ ⟨none, none⟩).2 (BNode.node "0" "" none []) [] rfl rfl rfl
      (by decide) (by decide) rfl⟩

/-- C4: when the stored timestamp is `TTL` or more in the past, a
`getHierarchy(false)` call performs exactly one fresh tree fetch and (when the
host fetch succeeds with a non-empty tree and the storage write is accepted)
overwrites the stored entry wholesale: the new flattened list and the fresh
timestamp replace the prior entry, and the new list is returned. -/
theorem C4_stale_refetch (now ts : Nat) (host : HostFetch) (st : LocalStore)
    (root : BNode) (rest : List BNode)
    (hts : st.cachedTimestamp = some ts) (hstale : ts + CACHE_DURATION_MS ≤ now)
    (htree : host.tree = .ok (root :: rest)) (hw : host.writeOk = true) :
    (getFullFolderHierarchy false now host st).treeFetches = 1 ∧
    (getFullFolderHierarchy false now host st).store =
      { cachedFolders := some (processNodes root.children 0)
        cachedTimestamp := some now } ∧
    (getFullFolderHierarchy false now host st).ret = processNodes root.children 0 := by
  have hlt : ¬ (now - ts < CACHE_DURATION_MS) := by omega
  have hc : cacheLookup false now host st = none := by
    cases hcf : st.cachedFolders with
    | none => simp [cacheLookup, hcf]
    | some folders => simp [cacheLookup, hcf, hts, hlt]
  simp [getFullFolderHierarchy, hc, htree, hw]

/-- C4 witness. -/
theorem C4_stale_refetch_witness :
    ((⟨some [], some 1⟩ : LocalStore).cachedTimestamp = some 1 ∧
      1 + CACHE_DURATION_MS ≤ 2000000 ∧
      (HostFetch.mk true (.ok [BNode.node "0" "" none [BNode.node "1" "B" none []]]) true).tree =
        .ok [BNode.node "0" "" none [BNode.node "1" "B" none []]] ∧
      (HostFetch.mk true (.ok [BNode.node "0" "" none [BNode.node "1" "B" none []]]) true).writeOk = true) ∧
    ((getFullFolderHierarchy false 2000000
        ⟨true, .ok [BNode.node "0" "" none [BNode.node "1" "B" none []]], true⟩
        ⟨some [], some 1⟩).treeFetches = 1 ∧
      (getFullFolderHierarchy false 2000000
        ⟨true, .ok [BNode.node "0" "" none [BNode.node "1" "B" none []]], true⟩
        ⟨some [], some 1⟩).store =
        { cachedFolders :=
            some (processNodes (BNode.node "0" "" none [BNode.node "1" "B" none []]).children 0)
          cachedTimestamp := some 2000000 } ∧
      (getFullFolderHierarchy false 2000000
        ⟨true, .ok [BNode.node "0" "" none [BNode.node "1" "B" none []]], true⟩
        ⟨some [], some 1⟩).ret =
        processNodes (BNode.node "0" "" none [BNode.node "1" "B" none []]).children 0) :=
  ⟨⟨rfl, by decide, rfl, rfl⟩,
    C4_stale_refetch 2000000 1
      ⟨true, .ok [BNode.node "0" "" none [BNode.node "1" "B" none []]], true⟩
      ⟨some [], some 1⟩ (BNode.node "0" "" none [BNode.node "1" "B" none []]) []
      rfl (by decide) rfl rfl⟩

/-- C5 counterexample: when the host fetch returns an empty tree, the call
returns the empty list and writes nothing, but no error is surfaced at all —
the function returns normally and emits no feedback (and a rejected fetch is
likewise caught rather than propagated, see the amended theorem). -/
theorem C5_cex :
    (getFullFolderHierarchy true 5 ⟨true, .ok [], true⟩
      ⟨some [⟨"1", "B", 0⟩], some 1⟩).ret = [] ∧
    (getFullFolderHierarchy true 5 ⟨true, .ok [], true⟩
      ⟨some [⟨"1", "B", 0⟩], some 1⟩).feedback = [] ∧
    (getFullFolderHierarchy true 5 ⟨true, .ok [], true⟩
      ⟨some [⟨"1", "B", 0⟩], some 1⟩).store = ⟨some [⟨"1", "B", 0⟩], some 1⟩ := by
  decide

/-- C5 (amended): when the call reaches the host fetch and the fetch fails,
`getFullFolderHierarchy` returns the empty list, reports the error only as
user-facing feedback (the call itself resolves normally — the error is not
propagated to the caller), and writes no cache entry (the prior stored entry
survives); when the fetch returns an empty tree it returns the empty list and
writes nothing, with no error reported anywhere. -/
theorem C5_fetch_failure_no_write (forceRefresh : Bool) (now : Nat)
    (host : HostFetch) (st : LocalStore)
    (hmiss : cacheLookup forceRefresh now host st = none) :
    (host.tree = .error () →
      (getFullFolderHierarchy forceRefresh now host st).ret = [] ∧
      (getFullFolderHierarchy forceRefresh now host st).store = st ∧
      (getFullFolderHierarchy forceRefresh now host st).feedback =
        [("Error loading folder hierarchy.", true)]) ∧
    (host.tree = .ok [] →
      (getFullFolderHierarchy forceRefresh now host st).ret = [] ∧
      (getFullFolderHierarchy forceRefresh now host st).store = st ∧
      (getFullFolderHierarchy forceRefresh now host st).feedback = []) := by
  constructor
  · intro htree
    simp [getFullFolderHierarchy, hmiss, htree]
  · intro htree
    simp [getFullFolderHierarchy, hmiss, htree]

/-- C5 witness. -/
theorem C5_fetch_failure_no_write_witness :
    cacheLookup true 5 ⟨true, .error (), true⟩ ⟨some [⟨"1", "B", 0⟩], some 1⟩ = none ∧
    ((HostFetch.mk true (.error ()) true).tree = .error () →
      (getFullFolderHierarchy true 5 ⟨true, .error (), true⟩
        ⟨some [⟨"1", "B", 0⟩], some 1⟩).ret = [] ∧
      (getFullFolderHierarchy true 5 ⟨true, .error (), true⟩
        ⟨some [⟨"1", "B", 0⟩], some 1⟩).store = ⟨some [⟨"1", "B", 0⟩], some 1⟩ ∧
      (getFullFolderHierarchy true 5 ⟨true, .error (), true⟩
        ⟨some [⟨"1", "B", 0⟩], some 1⟩).feedback =
        [("Error loading folder hierarchy.", true)]) :=
  ⟨by decide,
    (C5_fetch_failure_no_write true 5 ⟨true, .error (), true⟩
      ⟨some [⟨"1", "B", 0⟩], some 1⟩ (by decide)).1⟩

/-- The sum of a tally's four counters grows by exactly one at each `bump`. -/
theorem BatchResult.sum_bump (r : BatchResult) (o : TabOutcome) :
    (r.bump o).success + (r.bump o).alreadyExists + (r.bump o).notFound +
        (r.bump o).errors =
      r.success + r.alreadyExists + r.notFound + r.errors + 1 := by
  cases o <;> simp [bump] <;> omega

/-- C9: every batch loop (save, delete and move across the highlighted tabs,
and the bulk open/delete over the captured search-result snapshot) accounts
for every item in its input: each item contributes exactly one unit to the
combined success / already-exists / not-found / error tally, so no failure or
skip aborts the remainder of the batch. -/
theorem C9_batch_loops_process_all (folderId fromId toId : String)
    (hostOk : Nat → Bool) (tabs : List Tab) (i : Nat) (s : BookmarkStore)
    (isOpening : Bool) (items : List BulkItem) :
    ((saveBookmark folderId hostOk tabs i s).success +
        (saveBookmark folderId hostOk tabs i s).alreadyExists +
        (saveBookmark folderId hostOk tabs i s).notFound +
        (saveBookmark folderId hostOk tabs i s).errors = tabs.length) ∧
    ((deleteBookmark fromId hostOk tabs i s).success +
        (deleteBookmark fromId hostOk tabs i s).alreadyExists +
        (deleteBookmark fromId hostOk tabs i s).notFound +
        (deleteBookmark fromId hostOk tabs i s).errors = tabs.length) ∧
    ((moveTabs fromId toId hostOk tabs i s).success +
        (moveTabs fromId toId hostOk tabs i s).alreadyExists +
        (moveTabs fromId toId hostOk tabs i s).notFound +
        (moveTabs fromId toId hostOk tabs i s).errors = tabs.length) ∧
    ((bkmOptionMonitor isOpening hostOk items i s).success +
        (bkmOptionMonitor isOpening hostOk items i s).errors = items.length) := by
  refine ⟨?_, ?_, ?_, ?_⟩
  · induction tabs generalizing i s with
    | nil => simp [saveBookmark]
    | cons tab rest ih =>
        simp only [saveBookmark]
        cases hstep : saveTabStep folderId (hostOk i) s tab with
        | mk s2 o => rw [BatchResult.sum_bump, ih (i + 1) s2, List.length_cons]
  · induction tabs generalizing i s with
    | nil => simp [deleteBookmark]
    | cons tab rest ih =>
        simp only [deleteBookmark]
        cases hstep : deleteTabStep fromId (hostOk i) s tab with
        | mk s2 o => rw [BatchResult.sum_bump, ih (i + 1) s2, List.length_cons]
  · induction tabs generalizing i s with
    | nil => simp [moveTabs]
    | cons tab rest ih =>
        simp only [moveTabs]
        cases hstep : moveTabStep fromId toId (hostOk i) s tab with
        | mk s2 o => rw [BatchResult.sum_bump, ih (i + 1) s2, List.length_cons]
  · induction items generalizing i s with
    | nil => simp [bkmOptionMonitor]
    | cons bkm rest ih =>
        cases isOpening with
        | true =>
            have h1 := ih (i + 1) s
            simp [bkmOptionMonitor]
            omega
        | false =>
            by_cases hok : hostOk i = true
            · have h2 := ih (i + 1) (removeBookmark s bkm.id)
              simp [bkmOptionMonitor, hok]
              omega
            · have h1 := ih (i + 1) s
              simp [bkmOptionMonitor, hok]
              omega

/-- C6: per tab with a web-navigable URL, Save is a checked insert — (i) when
some bookmark with that URL already lies in the target folder, the step
changes nothing and is tallied "already exists"; (ii) otherwise exactly one
bookmark `{parentId: target, title: tab.title || tab.url, url: tab.url}` is
appended.  Consequently (iii) saving the same tab to the same folder twice,
starting with no such bookmark, leaves exactly one bookmark for that
(url, folder) pair, the first call creating it and the second reporting
"already exists". -/
theorem C6_save_idempotent (folderId u title : String) (s : BookmarkStore)
    (ok : Nat → Bool)
    (hnav : (strStartsWith u "http:" || strStartsWith u "https:") = true) :
    (∀ s' : BookmarkStore,
      (searchByUrl s' u).any (fun bm => bm.parentId == folderId) = true →
      ∀ okc : Bool, saveTabStep folderId okc s' ⟨some u, title⟩ = (s', .alreadyExists)) ∧
    (∀ s' : BookmarkStore,
      (searchByUrl s' u).any (fun bm => bm.parentId == folderId) = false →
      saveTabStep folderId true s' ⟨some u, title⟩ =
        (createBookmark s' folderId (if title == "" then u else title) u, .success)) ∧
    (countPair s u folderId = 0 → (∀ i, ok i = true) →
      countPair (saveBookmark folderId ok [⟨some u, title⟩] 0 s).store u folderId = 1 ∧
      (saveBookmark folderId ok [⟨some u, title⟩] 0 s).success = 1 ∧
      (saveBookmark folderId ok [⟨some u, title⟩] 0
          (saveBookmark folderId ok [⟨some u, title⟩] 0 s).store).store =
        (saveBookmark folderId ok [⟨some u, title⟩] 0 s).store ∧
      (saveBookmark folderId ok [⟨some u, title⟩] 0
          (saveBookmark folderId ok [⟨some u, title⟩] 0 s).store).alreadyExists = 1 ∧
      (saveBookmark folderId ok [⟨some u, title⟩] 0
          (saveBookmark folderId ok [⟨some u, title⟩] 0 s).store).success = 0 ∧
      countPair (saveBookmark folderId ok [⟨some u, title⟩] 0
          (saveBookmark folderId ok [⟨some u, title⟩] 0 s).store).store u folderId = 1) := by
  have hskip : (!strStartsWith u "http:" && !strStartsWith u "https:") = false := by
    cases hx : strStartsWith u "http:" <;> cases hy : strStartsWith u "https:" <;>
      simp_all
  refine ⟨?_, ?_, ?_⟩
  · intro s' hdup okc
    simp [saveTabStep, hskip, hdup]
  · intro s' hdup
    simp [saveTabStep, hskip, hdup]
  · intro h0 hok
    have hfilter : s.bookmarks.filter
        (fun b => b.url == u && b.parentId == folderId) = [] := by
      rw [countPair, List.length_eq_zero] at h0
      exact h0
    have hany : (searchByUrl s u).any (fun bm => bm.parentId == folderId) = false := by
      rw [List.any_eq_false]
      intro b hb
      rw [searchByUrl, List.mem_filter] at hb
      have := List.filter_eq_nil_iff.mp hfilter b hb.1
      simp only [hb.2, Bool.true_and] at this
      exact this
    have e1 : saveBookmark folderId ok [⟨some u, title⟩] 0 s =
        { store := createBookmark s folderId (if title == "" then u else title) u
          success := 1, alreadyExists := 0, notFound := 0, errors := 0 } := by
      simp [saveBookmark, saveTabStep, hskip, hany, hok 0, BatchResult.bump]
    set s2 := createBookmark s folderId (if title == "" then u else title) u with hs2
    have hnew : (searchByUrl s2 u).any (fun bm => bm.parentId == folderId) = true := by
      simp [searchByUrl, hs2, createBookmark, List.filter_append, List.any_append]
    have e2 : saveBookmark folderId ok [⟨some u, title⟩] 0 s2 =
        { store := s2, success := 0, alreadyExists := 1, notFound := 0, errors := 0 } := by
      simp [saveBookmark, saveTabStep, hskip, hnew, BatchResult.bump]
    have hcount2 : countPair s2 u folderId = 1 := by
      simp [countPair, hs2, createBookmark, List.filter_append, hfilter]
    rw [e1]
    simp only
    rw [e2]
    simp [hcount2]

/-- C6 witness. -/
theorem C6_save_idempotent_witness :
    (strStartsWith "http://e.com" "http:" || strStartsWith "http://e.com" "https:") = true ∧
    (countPair ⟨[], 1⟩ "http://e.com" "7" = 0 → (∀ i : Nat, (fun _ => true) i = true) →
      countPair (saveBookmark "7" (fun _ => true)
          [⟨some "http://e.com", "E"⟩] 0 ⟨[], 1⟩).store "http://e.com" "7" = 1 ∧
      (saveBookmark "7" (fun _ => true) [⟨some "http://e.com", "E"⟩] 0 ⟨[], 1⟩).success = 1 ∧
      (saveBookmark "7" (fun _ => true) [⟨some "http://e.com", "E"⟩] 0
          (saveBookmark "7" (fun _ => true) [⟨some "http://e.com", "E"⟩] 0 ⟨[], 1⟩).store).store =
        (saveBookmark "7" (fun _ => true) [⟨some "http://e.com", "E"⟩] 0 ⟨[], 1⟩).store ∧
      (saveBookmark "7" (fun _ => true) [⟨some "http://e.com", "E"⟩] 0
          (saveBookmark "7" (fun _ => true) [⟨some "http://e.com", "E"⟩] 0 ⟨[], 1⟩).store).alreadyExists = 1 ∧
      (saveBookmark "7" (fun _ => true) [⟨some "http://e.com", "E"⟩] 0
          (saveBookmark "7" (fun _ => true) [⟨some "http://e.com", "E"⟩] 0 ⟨[], 1⟩).store).success = 0 ∧
      countPair (saveBookmark "7" (fun _ => true) [⟨some "http://e.com", "E"⟩] 0
          (saveBookmark "7" (fun _ => true) [⟨some "http://e.com", "E"⟩] 0 ⟨[], 1⟩).store).store
        "http://e.com" "7" = 1) :=
  ⟨by decide,
    (C6_save_idempotent "7" "http://e.com" "E" ⟨[], 1⟩ (fun _ => true) (by decide)).2.2⟩

/-! ### Order theory of the collation model -/

/-- `lexLt` is irreflexive. -/
theorem lexLt_irrefl : ∀ l : List Char, lexLt l l = false
  | [] => rfl
  | a :: as => by simp [lexLt, lexLt_irrefl as]

/-- `lexLt` is asymmetric. -/
theorem lexLt_asymm : ∀ {a b : List Char}, lexLt a b = true → lexLt b a = false
  | [], [], h => by simp [lexLt] at h
  | [], _ :: _, _ => rfl
  | _ :: _, [], h => by simp [lexLt] at h
  | a :: as, b :: bs, h => by
      by_cases hab : a < b
      · have hba : ¬ b < a := lt_asymm hab
        simp [lexLt, hab, hba]
      · by_cases hba : b < a
        · simp [lexLt, hab, hba] at h
        · have ih := lexLt_asymm (a := as) (b := bs) (by simpa [lexLt, hab, hba] using h)
          simp [lexLt, hab, hba, ih]

/-- `lexLt` is transitive. -/
theorem lexLt_trans : ∀ {a b c : List Char},
    lexLt a b = true → lexLt b c = true → lexLt a c = true
  | [], [], _, h1, _ => by simp [lexLt] at h1
  | [], _ :: _, [], _, h2 => by simp [lexLt] at h2
  | [], _ :: _, _ :: _, _, _ => rfl
  | _ :: _, [], _, h1, _ => by simp [lexLt] at h1
  | _ :: _, _ :: _, [], _, h2 => by simp [lexLt] at h2
  | a :: as, b :: bs, c :: cs, h1, h2 => by
      by_cases hab : a < b
      · by_cases hbc : b < c
        · simp [lexLt, lt_trans hab hbc]
        · by_cases hcb : c < b
          · simp [lexLt, hbc, hcb] at h2
          · have hbceq : b = c := le_antisymm (not_lt.mp hcb) (not_lt.mp hbc)
            simp [lexLt, hbceq ▸ hab]
      · by_cases hba : b < a
        · simp [lexLt, hab, hba] at h1
        · have habeq : a = b := le_antisymm (not_lt.mp hba) (not_lt.mp hab)
          subst habeq
          by_cases hbc : a < c
          · simp [lexLt, hbc]
          · by_cases hcb : c < a
            · simp [lexLt, hbc, hcb] at h2
            · have h1' : lexLt as bs = true := by simpa [lexLt, hab] using h1
              have h2' : lexLt bs cs = true := by simpa [lexLt, hbc, hcb] using h2
              simp [lexLt, hbc, hcb, lexLt_trans h1' h2']

/-- Two lists neither of which is `lexLt`-below the other are equal. -/
theorem lexLt_connex : ∀ {a b : List Char},
    lexLt a b = false → lexLt b a = false → a = b
  | [], [], _, _ => rfl
  | [], _ :: _, h1, _ => by simp [lexLt] at h1
  | _ :: _, [], _, h2 => by simp [lexLt] at h2
  | a :: as, b :: bs, h1, h2 => by
      by_cases hab : a < b
      · simp [lexLt, hab] at h1
      · by_cases hba : b < a
        · simp [lexLt, hba] at h2
        · have habeq : a = b := le_antisymm (not_lt.mp hba) (not_lt.mp hab)
          subst habeq
          have h1' : lexLt as bs = false := by simpa [lexLt, hab] using h1
          have h2' : lexLt bs as = false := by simpa [lexLt, hab] using h2
          rw [lexLt_connex h1' h2']

/-- `keyLt` is asymmetric. -/
theorem keyLt_asymm {p q : List Char × List Char} (h : keyLt p q = true) :
    keyLt q p = false := by
  unfold keyLt at h ⊢
  rcases Bool.or_eq_true_iff.mp h with h1 | h1
  · have hne : (q.1 == p.1) = false := by
      rw [beq_eq_false_iff_ne]
      intro he
      rw [he] at h1
      simp [lexLt_irrefl] at h1
    simp [lexLt_asymm h1, hne]
  · obtain ⟨he, h2⟩ := Bool.and_eq_true_iff.mp h1
    have he' : p.1 = q.1 := beq_iff_eq.mp he
    simp [he', lexLt_irrefl, lexLt_asymm h2]

/-- `keyLt` is transitive. -/
theorem keyLt_trans {p q r : List Char × List Char} (h1 : keyLt p q = true)
    (h2 : keyLt q r = true) : keyLt p r = true := by
  unfold keyLt at h1 h2 ⊢
  rcases Bool.or_eq_true_iff.mp h1 with ha | ha
  · rcases Bool.or_eq_true_iff.mp h2 with hb | hb
    · simp [lexLt_trans ha hb]
    · obtain ⟨he, _⟩ := Bool.and_eq_true_iff.mp hb
      rw [beq_iff_eq.mp he] at ha
      simp [ha]
  · obtain ⟨he, ha2⟩ := Bool.and_eq_true_iff.mp ha
    rw [beq_iff_eq.mp he]
    rcases Bool.or_eq_true_iff.mp h2 with hb | hb
    · simp [hb]
    · obtain ⟨he2, hb2⟩ := Bool.and_eq_true_iff.mp hb
      simp [he2, lexLt_trans ha2 hb2]

/-- Two keys neither of which is `keyLt`-below the other are equal. -/
theorem keyLt_connex {p q : List Char × List Char} (h1 : keyLt p q = false)
    (h2 : keyLt q p = false) : p = q := by
  unfold keyLt at h1 h2
  rw [Bool.or_eq_false_iff] at h1 h2
  have he1 : p.1 = q.1 := lexLt_connex h1.1 h2.1
  rw [Bool.and_eq_false_iff] at h1 h2
  rcases h1.2 with hx | hx
  · rw [beq_eq_false_iff_ne] at hx
    exact absurd he1 hx
  · rcases h2.2 with hy | hy
    · rw [beq_eq_false_iff_ne] at hy
      exact absurd he1.symm hy
    · have he2 : p.2 = q.2 := lexLt_connex hx hy
      exact Prod.ext he1 he2

/-- Sign characterisation: the comparator is negative exactly when the first
key is strictly below the second. -/
theorem localeCompare_neg_iff {a b : String} :
    localeCompare a b < 0 ↔ keyLt (sortKey a) (sortKey b) = true := by
  unfold localeCompare
  by_cases h1 : keyLt (sortKey a) (sortKey b) = true
  · simp [h1]
  · by_cases h2 : keyLt (sortKey b) (sortKey a) = true <;> simp [h1, h2]

/-- Sign characterisation: the comparator is `≤ 0` exactly when the second key
is not strictly below the first. -/
theorem localeCompare_le_iff {a b : String} :
    localeCompare a b ≤ 0 ↔ keyLt (sortKey b) (sortKey a) = false := by
  unfold localeCompare
  by_cases h1 : keyLt (sortKey a) (sortKey b) = true
  · simp [h1, keyLt_asymm h1]
  · by_cases h2 : keyLt (sortKey b) (sortKey a) = true <;> simp [h1, h2]

/-- The comparator vanishes exactly on equal collation keys. -/
theorem localeCompare_zero_iff {a b : String} :
    localeCompare a b = 0 ↔ sortKey a = sortKey b := by
  unfold localeCompare
  by_cases h1 : keyLt (sortKey a) (sortKey b) = true
  · simp only [h1, if_true]
    constructor
    · intro h; exact absurd h (by decide)
    · intro h; rw [h] at h1; unfold keyLt at h1; simp [lexLt_irrefl] at h1
  · by_cases h2 : keyLt (sortKey b) (sortKey a) = true
    · simp only [h1, h2, if_false, if_true]
      constructor
      · intro h; exact absurd h (by decide)
      · intro h; rw [h] at h2; unfold keyLt at h2; simp [lexLt_irrefl] at h2
    · simp only [h1, h2, if_false]
      constructor
      · intro _
        exact keyLt_connex (Bool.not_eq_true _ ▸ h1) (Bool.not_eq_true _ ▸ h2)
      · intro _; rfl

/-- The sibling comparator is total, as `mergeSort` requires. -/
theorem nodeLe_total (a b : BNode) : (nodeLe a b || nodeLe b a) = true := by
  unfold nodeLe
  by_cases h : keyLt (sortKey b.title) (sortKey a.title) = true
  · have : localeCompare b.title a.title ≤ 0 := by
      rw [localeCompare_le_iff]
      exact keyLt_asymm h
    simp [this]
  · have : localeCompare a.title b.title ≤ 0 := by
      rw [localeCompare_le_iff]
      exact Bool.not_eq_true _ ▸ h
    simp [this]

/-- The sibling comparator is transitive, as `mergeSort` requires. -/
theorem nodeLe_trans (a b c : BNode) (h1 : nodeLe a b) (h2 : nodeLe b c) :
    nodeLe a c := by
  unfold nodeLe at h1 h2 ⊢
  rw [decide_eq_true_iff] at h1 h2
  rw [decide_eq_true_iff]
  rw [localeCompare_le_iff] at h1 h2 ⊢
  by_cases hca : keyLt (sortKey c.title) (sortKey a.title) = true
  · by_cases hab : keyLt (sortKey a.title) (sortKey b.title) = true
    · have := keyLt_trans hca hab
      rw [this] at h2
      exact absurd h2 (by simp)
    · have : sortKey a.title = sortKey b.title :=
        keyLt_connex (Bool.not_eq_true _ ▸ hab) h1
      rw [this] at hca
      rw [hca] at h2
      exact absurd h2 (by simp)
  · exact Bool.not_eq_true _ ▸ hca

/-! ### Relative position of two elements of a list -/

/-- Two distinct members of a list occur in one order or the other. -/
theorem pair_sublist_total {α : Type _} {a b : α} {l : List α}
    (ha : a ∈ l) (hb : b ∈ l) (hne : a ≠ b) :
    [a, b] <+ l ∨ [b, a] <+ l := by
  induction l with
  | nil => cases ha
  | cons x rest ih =>
      rcases List.mem_cons.mp ha with rfl | ha'
      · left
        have hb' : b ∈ rest := by
          rcases List.mem_cons.mp hb with rfl | h
          · exact absurd rfl hne
          · exact h
        exact (List.singleton_sublist.mpr hb').cons₂ a
      · rcases List.mem_cons.mp hb with rfl | hb'
        · right
          exact (List.singleton_sublist.mpr ha').cons₂ b
        · rcases ih ha' hb' with h | h
          · exact Or.inl (h.cons x)
          · exact Or.inr (h.cons x)

/-- In a duplicate-free list, two distinct elements occur in only one order. -/
theorem pair_sublist_asymm {α : Type _} {a b : α} {l : List α}
    (hnd : l.Nodup) (hne : a ≠ b) (hab : [a, b] <+ l) : ¬ [b, a] <+ l := by
  induction l with
  | nil => simp at hab
  | cons x rest ih =>
      intro hba
      have hx : x ∉ rest := (List.nodup_cons.mp hnd).1
      have hrest : rest.Nodup := (List.nodup_cons.mp hnd).2
      rcases List.sublist_cons_iff.mp hab with h1 | ⟨r1, he1, h1⟩
      · rcases List.sublist_cons_iff.mp hba with h2 | ⟨r2, he2, h2⟩
        · exact ih hrest h1 h2
        · have hbx : b = x := (List.cons.injEq _ _ _ _).mp he2 |>.1
          have hbmem : b ∈ rest := h1.subset (by simp)
          exact hx (hbx ▸ hbmem)
      · have hax : a = x := (List.cons.injEq _ _ _ _).mp he1 |>.1
        rcases List.sublist_cons_iff.mp hba with h2 | ⟨r2, he2, h2⟩
        · have hamem : a ∈ rest := h2.subset (by simp)
          exact hx (hax ▸ hamem)
        · have hbx : b = x := (List.cons.injEq _ _ _ _).mp he2 |>.1
          exact hne (hax.trans hbx.symm)

/-- Characterisation of the order of two distinct siblings after the stable
sort by the title comparator: `a` ends up before `b` iff the comparator is
strictly negative, or it ties and `a` already preceded `b` in the input. -/
theorem mergeSort_pair_iff {l : List BNode} {a b : BNode}
    (hnd : l.Nodup) (ha : a ∈ l) (hb : b ∈ l) (hne : a ≠ b) :
    [a, b] <+ l.mergeSort nodeLe ↔
      (localeCompare a.title b.title < 0 ∨
        (localeCompare a.title b.title = 0 ∧ [a, b] <+ l)) := by
  have hsorted := @List.sorted_mergeSort BNode nodeLe nodeLe_trans nodeLe_total l
  have hsortNodup : (l.mergeSort nodeLe).Nodup :=
    (List.mergeSort_perm l nodeLe).symm.nodup hnd
  constructor
  · intro h
    have hp : List.Pairwise (fun x y => nodeLe x y = true) [a, b] := hsorted.sublist h
    have hle := List.pairwise_pair.mp hp
    have hcmp : localeCompare a.title b.title ≤ 0 := by
      simpa [nodeLe] using hle
    rcases lt_or_eq_of_le hcmp with hlt | hzero
    · exact Or.inl hlt
    · refine Or.inr ⟨hzero, ?_⟩
      rcases pair_sublist_total ha hb hne with hab | hba
      · exact hab
      · have hzero' : localeCompare b.title a.title = 0 :=
          localeCompare_zero_iff.mpr (localeCompare_zero_iff.mp hzero).symm
        have hle' : nodeLe b a = true := by
          simp [nodeLe, hzero']
        have hba2 := List.pair_sublist_mergeSort nodeLe_trans nodeLe_total hle' hba
        exact absurd hba2 (pair_sublist_asymm hsortNodup hne h)
  · intro h
    rcases h with hlt | ⟨hzero, habl⟩
    · have hle : nodeLe a b = true := by
        simp [nodeLe, le_of_lt hlt]
      rcases pair_sublist_total (List.mem_mergeSort.mpr ha) (List.mem_mergeSort.mpr hb)
          hne with hab | hba
      · exact hab
      · have hp' : List.Pairwise (fun x y => nodeLe x y = true) [b, a] :=
          hsorted.sublist hba
        have hle' := List.pairwise_pair.mp hp'
        have hcmp' : localeCompare b.title a.title ≤ 0 := by
          simpa [nodeLe] using hle'
        rw [localeCompare_le_iff] at hcmp'
        rw [localeCompare_neg_iff] at hlt
        rw [hlt] at hcmp'
        cases hcmp'
    · have hle : nodeLe a b = true := by
        simp [nodeLe, le_of_eq hzero]
      exact List.pair_sublist_mergeSort nodeLe_trans nodeLe_total hle habl

/-! ### Structure of the flattened output -/

/-- `forestSize` as a sum over the nodes. -/
theorem forestSize_eq_sum : ∀ l : List BNode, forestSize l = (l.map nodeSize).sum
  | [] => by simp [forestSize]
  | n :: rest => by simp [forestSize, forestSize_eq_sum rest]

/-- `forestSize` is invariant under permutation. -/
theorem forestSize_perm {l1 l2 : List BNode} (h : l1.Perm l2) :
    forestSize l1 = forestSize l2 := by
  rw [forestSize_eq_sum, forestSize_eq_sum]
  exact (h.map nodeSize).sum_eq

/-- Every node has positive size. -/
theorem nodeSize_pos (n : BNode) : 1 ≤ nodeSize n := by
  cases n with
  | node i t u c => simp [nodeSize]

/-- A member's size is bounded by the forest's. -/
theorem nodeSize_le_of_mem : ∀ {l : List BNode} {n : BNode}, n ∈ l →
    nodeSize n ≤ forestSize l
  | m :: rest, n, h => by
      rcases List.mem_cons.mp h with rfl | h'
      · simp [forestSize]
      · calc nodeSize n ≤ forestSize rest := nodeSize_le_of_mem h'
          _ ≤ forestSize (m :: rest) := by simp [forestSize]

/-- `forestIds` as a flattening over the nodes. -/
theorem forestIds_eq_flatten : ∀ l : List BNode,
    forestIds l = (l.map nodeIds).flatten
  | [] => by simp [forestIds]
  | n :: rest => by simp [forestIds, forestIds_eq_flatten rest]

/-- `forestIds` is permutation-invariant up to permutation. -/
theorem forestIds_perm {l1 l2 : List BNode} (h : l1.Perm l2) :
    (forestIds l1).Perm (forestIds l2) := by
  rw [forestIds_eq_flatten, forestIds_eq_flatten]
  exact (h.map nodeIds).flatten

/-- The subtree identifiers of a member appear contiguously in the forest's
identifier list. -/
theorem nodeIds_inside_of_mem : ∀ {l : List BNode} {n : BNode}, n ∈ l →
    nodeIds n <:+: forestIds l
  | m :: rest, n, h => by
      rcases List.mem_cons.mp h with rfl | h'
      · rw [forestIds]
        exact (List.prefix_append (nodeIds n) (forestIds rest)).isInfix
      · rw [forestIds]
        exact (nodeIds_inside_of_mem h').trans
          (List.suffix_append (nodeIds m) (forestIds rest)).isInfix

/-- A reached context's identifiers appear contiguously in the root forest's
identifier list. -/
theorem ctxAt_forestIds_inside {t C : List BNode} {d : Nat} (h : CtxAt t C d) :
    forestIds C <:+: forestIds t := by
  induction h with
  | root => exact List.infix_refl _
  | child n hctx hmem hf ih =>
      have h1 : forestIds n.children <:+: nodeIds n := by
        cases n with
        | node i ttl u c =>
            refine ⟨[i], [], ?_⟩
            simp [nodeIds, BNode.children]
      exact (h1.trans (nodeIds_inside_of_mem hmem)).trans ih

/-- The ids of the nodes of a forest form a sublist of all its ids. -/
theorem map_id_sublist_forestIds : ∀ l : List BNode,
    l.map BNode.id <+ forestIds l
  | [] => by simp [forestIds]
  | m :: rest => by
      rw [forestIds]
      cases m with
      | node i t u c =>
          show i :: List.map BNode.id rest <+ (i :: forestIds c) ++ forestIds rest
          rw [List.cons_append]
          exact ((map_id_sublist_forestIds rest).trans
            (List.sublist_append_right (forestIds c) _)).cons₂ i

/-- In a tree with pairwise-distinct identifiers, every reached sibling list
has pairwise-distinct nodes. -/
theorem ctxAt_nodup {t C : List BNode} {d : Nat} (hids : (forestIds t).Nodup)
    (h : CtxAt t C d) : C.Nodup := by
  have h1 : (forestIds C).Nodup := ((ctxAt_forestIds_inside h).sublist).nodup hids
  have h2 : (C.map BNode.id).Nodup := (map_id_sublist_forestIds C).nodup h1
  exact h2.of_map _

/-- Mapping folder nodes to their records respects relative order inside one
flattened level: a sublist of folderish nodes of `L` reappears, as records at
the level's depth, as a sublist of `processSorted L d`. -/
theorem map_sublist_processSorted {sub L : List BNode} {d : Nat}
    (hsub : sub <+ L) (hf : ∀ n ∈ sub, n.isFolderish = true) :
    sub.map (fun n => FolderRecord.mk n.id n.title d) <+ processSorted L d := by
  induction hsub with
  | slnil => simp
  | @cons l₁ l₂ m hs ih =>
      rw [processSorted]
      exact (ih hf).trans (List.sublist_append_right _ _)
  | @cons₂ l₁ l₂ m hs ih =>
      rw [processSorted]
      have hfm : m.isFolderish = true := hf m (by simp)
      rw [hfm]
      simp only [if_true, List.map_cons, List.cons_append]
      refine List.Sublist.cons₂ _ ?_
      exact (ih fun n hn => hf n (by simp [hn])).trans (List.sublist_append_right _ _)

/-- The flattening of a folder member's children sits contiguously inside the
level's output. -/
theorem processNodes_children_inside {L : List BNode} {d : Nat} {n : BNode}
    (hn : n ∈ L) (hf : n.isFolderish = true) :
    processNodes n.children (d + 1) <:+: processSorted L d := by
  induction L with
  | nil => cases hn
  | cons m rest ih =>
      rcases List.mem_cons.mp hn with rfl | hn'
      · rw [processSorted, hf]
        by_cases hc : n.children.length > 0
        · simp only [hc, if_true, List.cons_append]
          exact ⟨[FolderRecord.mk n.id n.title d], processSorted rest d, by simp⟩
        · have hce : n.children = [] := by
            simpa using Nat.le_antisymm (Nat.not_lt.mp hc) (Nat.zero_le _)
          rw [hce]
          rw [processNodes]
          simp only [List.mergeSort_nil]
          rw [processSorted]
          exact List.nil_infix
      · rw [processSorted]
        exact (ih hn').trans
          (List.suffix_append _ (processSorted rest d)).isInfix

/-- Reach relations compose, adding depths. -/
theorem CtxAt.comp {A B : List BNode} {dB : Nat} (h1 : CtxAt A B dB) :
    ∀ {C : List BNode} {dC : Nat}, CtxAt B C dC → CtxAt A C (dB + dC) := by
  intro C dC h2
  induction h2 with
  | root => exact Nat.add_zero dB ▸ h1
  | @child Cm dm n hctx hmem hf ih =>
      have h3 := CtxAt.child n ih hmem hf
      have he : dB + (dm + 1) = (dB + dm) + 1 := by omega
      rw [he]
      exact h3

/-- The flattening of a reached context (at its absolute depth) sits
contiguously inside the whole flattened output. -/
theorem ctxAt_processNodes_inside {C C' : List BNode} {dd : Nat}
    (h : CtxAt C C' dd) (d0 : Nat) :
    processNodes C' (d0 + dd) <:+: processNodes C d0 := by
  induction h with
  | root => rw [Nat.add_zero]
  | @child Cm dm n hctx hmem hf ih =>
      have h1 : processNodes n.children ((d0 + dm) + 1) <:+:
          processSorted (Cm.mergeSort nodeLe) (d0 + dm) :=
        processNodes_children_inside (List.mem_mergeSort.mpr hmem) hf
      have h2 : processNodes Cm (d0 + dm) =
          processSorted (Cm.mergeSort nodeLe) (d0 + dm) := by
        rw [processNodes]
      rw [Nat.add_succ]
      exact (h2 ▸ h1).trans ih

/-- Any record of one flattened level comes from a folder node of the level:
either as its own record at the level's depth, or from the flattening of its
children. -/
theorem mem_processSorted_cases {L : List BNode} {d : Nat} {r : FolderRecord}
    (h : r ∈ processSorted L d) :
    ∃ n ∈ L, n.isFolderish = true ∧
      (r = ⟨n.id, n.title, d⟩ ∨ r ∈ processNodes n.children (d + 1)) := by
  induction L with
  | nil => rw [processSorted] at h; cases h
  | cons m rest ih =>
      rw [processSorted] at h
      rcases List.mem_append.mp h with hb | hr
      · by_cases hf : m.isFolderish = true
        · rw [hf] at hb
          simp only [if_true] at hb
          rcases List.mem_cons.mp hb with rfl | hin
          · exact ⟨m, by simp, hf, Or.inl rfl⟩
          · by_cases hc : m.children.length > 0
            · rw [if_pos hc] at hin
              exact ⟨m, by simp, hf, Or.inr hin⟩
            · rw [if_neg hc] at hin
              cases hin
        · rw [Bool.not_eq_true] at hf
          rw [hf] at hb
          simp at hb
      · obtain ⟨n, hn, hnf, hcase⟩ := ih hr
        exact ⟨n, by simp [hn], hnf, hcase⟩

/-- Forward half of the flatten characterisation, by strong induction on the
forest size: every record of `processNodes C d` is the record of a folder node
of some reached context, at depth `d` plus the context's relative depth. -/
theorem mem_processNodes_of : ∀ (k : Nat) (C : List BNode) (d : Nat)
    (r : FolderRecord), forestSize C ≤ k → r ∈ processNodes C d →
    ∃ C' dd n, CtxAt C C' dd ∧ n ∈ C' ∧ n.isFolderish = true ∧
      r = ⟨n.id, n.title, d + dd⟩ := by
  intro k
  induction k with
  | zero =>
      intro C d r hk hr
      cases C with
      | nil =>
          rw [processNodes] at hr
          simp only [List.mergeSort_nil] at hr
          rw [processSorted] at hr
          cases hr
      | cons m rest =>
          exfalso
          have := nodeSize_pos m
          simp [forestSize] at hk
          omega
  | succ k ih =>
      intro C d r hk hr
      rw [processNodes] at hr
      obtain ⟨n, hn, hf, hcase⟩ := mem_processSorted_cases hr
      have hnC : n ∈ C := List.mem_mergeSort.mp hn
      rcases hcase with rfl | hr'
      · exact ⟨C, 0, n, CtxAt.root C, hnC, hf, by simp⟩
      · have hsize : forestSize n.children ≤ k := by
          have h1 : nodeSize n ≤ forestSize C := nodeSize_le_of_mem hnC
          cases n with
          | node i t u c =>
              simp only [nodeSize, BNode.children] at h1 ⊢
              omega
        obtain ⟨C', dd, m, hctx, hm, hmf, hre⟩ := ih n.children (d + 1) r hsize hr'
        refine ⟨C', 1 + dd, m, ?_, hm, hmf, ?_⟩
        · have hbase : CtxAt C n.children 1 := by
            have h2 := CtxAt.child n (CtxAt.root C) hnC hf
            simpa using h2
          exact hbase.comp hctx
        · rw [hre]
          have : d + 1 + dd = d + (1 + dd) := by omega
          rw [this]

/-- Backward half of the flatten characterisation: the record of a folder node
of a reached context occurs in the flattened output, at the absolute depth. -/
theorem rec_mem_processNodes {C C' : List BNode} {dd : Nat} {n : BNode}
    (hctx : CtxAt C C' dd) (hn : n ∈ C') (hf : n.isFolderish = true) (d : Nat) :
    (⟨n.id, n.title, d + dd⟩ : FolderRecord) ∈ processNodes C d := by
  have hinf := ctxAt_processNodes_inside hctx d
  have hmem : (⟨n.id, n.title, d + dd⟩ : FolderRecord) ∈ processNodes C' (d + dd) := by
    rw [processNodes]
    have hmm : n ∈ C'.mergeSort nodeLe := List.mem_mergeSort.mpr hn
    have hs := map_sublist_processSorted (d := d + dd)
      (List.singleton_sublist.mpr hmm)
      (by intro x hx; rw [List.mem_singleton.mp hx]; exact hf)
    exact hs.subset (by simp)
  exact hinf.sublist.subset hmem

/-- Ids of one flattened level: they are pairwise distinct and drawn from the
level's subtree identifiers, provided those are pairwise distinct.  Strong
induction on the forest size. -/
theorem processSorted_ids_nodup : ∀ (k : Nat) (L : List BNode) (d : Nat),
    forestSize L ≤ k → (forestIds L).Nodup →
    ((processSorted L d).map FolderRecord.id).Nodup ∧
      (processSorted L d).map FolderRecord.id ⊆ forestIds L := by
  intro k
  induction k with
  | zero =>
      intro L d hk hnd
      cases L with
      | nil =>
          rw [processSorted]
          simp
      | cons m rest =>
          exfalso
          have := nodeSize_pos m
          simp [forestSize] at hk
          omega
  | succ k ih =>
      intro L d hk hnd
      cases L with
      | nil =>
          rw [processSorted]
          simp
      | cons m rest =>
          rw [forestIds] at hnd
          rw [List.nodup_append] at hnd
          obtain ⟨hnm, hnrest, hdisj⟩ := hnd
          have hkrest : forestSize rest ≤ k := by
            have := nodeSize_pos m
            simp [forestSize] at hk
            omega
          obtain ⟨ihr_nd, ihr_sub⟩ := ih rest d hkrest hnrest
          rw [processSorted, List.map_append]
          have hbres : ((if m.isFolderish then
              FolderRecord.mk m.id m.title d ::
                (if m.children.length > 0 then processNodes m.children (d + 1) else [])
            else []).map FolderRecord.id).Nodup ∧
              ((if m.isFolderish then
                FolderRecord.mk m.id m.title d ::
                  (if m.children.length > 0 then processNodes m.children (d + 1) else [])
              else []).map FolderRecord.id) ⊆ nodeIds m := by
            by_cases hf : m.isFolderish = true
            · rw [hf]
              simp only [if_true]
              by_cases hc : m.children.length > 0
              · rw [if_pos hc]
                have hknm : forestSize (m.children.mergeSort nodeLe) ≤ k := by
                  rw [forestSize_perm (List.mergeSort_perm m.children nodeLe)]
                  have h1 : nodeSize m ≤ forestSize (m :: rest) := nodeSize_le_of_mem (by simp)
                  cases m with
                  | node i t u c =>
                      simp only [nodeSize, BNode.children] at h1 ⊢
                      simp [forestSize, nodeSize] at hk
                      omega
                have hidnm : (forestIds (m.children.mergeSort nodeLe)).Nodup := by
                  refine ((forestIds_perm (List.mergeSort_perm m.children nodeLe)).symm.nodup) ?_
                  cases m with
                  | node i t u c =>
                      rw [nodeIds] at hnm
                      exact (List.nodup_cons.mp hnm).2
                obtain ⟨hind, hisub⟩ := ih (m.children.mergeSort nodeLe) (d + 1) hknm hidnm
                have hinner : processNodes m.children (d + 1) =
                    processSorted (m.children.mergeSort nodeLe) (d + 1) := by
                  rw [processNodes]
                have hmid : m.id ∉ (processNodes m.children (d + 1)).map FolderRecord.id := by
                  intro hmem
                  rw [hinner] at hmem
                  have h2 := hisub hmem
                  have h3 : m.id ∈ forestIds m.children :=
                    (forestIds_perm (List.mergeSort_perm m.children nodeLe)).subset h2
                  cases m with
                  | node i t u c =>
                      rw [nodeIds] at hnm
                      exact (List.nodup_cons.mp hnm).1 h3
                constructor
                · rw [List.map_cons, List.nodup_cons]
                  exact ⟨hmid, hinner ▸ hind⟩
                · rw [List.map_cons]
                  intro x hx
                  rcases List.mem_cons.mp hx with rfl | hx'
                  · cases m with
                    | node i t u c => rw [nodeIds]; simp [BNode.id]
                  · rw [hinner] at hx'
                    have h2 := hisub hx'
                    have h3 : x ∈ forestIds m.children :=
                      (forestIds_perm (List.mergeSort_perm m.children nodeLe)).subset h2
                    cases m with
                    | node i t u c =>
                        rw [nodeIds]
                        exact List.mem_cons_of_mem _ h3
              · rw [if_neg hc]
                constructor
                · simp
                · intro x hx
                  have hx' : x = m.id := by simpa using hx
                  subst hx'
                  cases m with
                  | node i t u c => rw [nodeIds]; simp [BNode.id]
            · rw [Bool.not_eq_true] at hf
              rw [hf]
              simp
          refine ⟨List.Nodup.append hbres.1 ihr_nd ?_, ?_⟩
          · intro x hx1 hx2
            exact hdisj (hbres.2 hx1) (ihr_sub hx2)
          · intro x hx
            rw [forestIds]
            rcases List.mem_append.mp hx with h | h
            · exact List.mem_append_left _ (hbres.2 h)
            · exact List.mem_append_right _ (ihr_sub h)

/-- In a tree with pairwise-distinct identifiers, the flattened output has
pairwise-distinct record identifiers. -/
theorem processNodes_ids_nodup {C : List BNode} {d : Nat}
    (hnd : (forestIds C).Nodup) :
    ((processNodes C d).map FolderRecord.id).Nodup := by
  rw [processNodes]
  have hperm := forestIds_perm (List.mergeSort_perm C nodeLe)
  exact (processSorted_ids_nodup (forestSize (C.mergeSort nodeLe))
    (C.mergeSort nodeLe) d (le_refl _) (hperm.symm.nodup hnd)).1

/-- Sign characterisation: the comparator is positive exactly when the second
key is strictly below the first. -/
theorem localeCompare_pos_iff {a b : String} :
    0 < localeCompare a b ↔ keyLt (sortKey b) (sortKey a) = true := by
  unfold localeCompare
  by_cases h1 : keyLt (sortKey a) (sortKey b) = true
  · simp [h1, keyLt_asymm h1]
  · by_cases h2 : keyLt (sortKey b) (sortKey a) = true <;> simp [h1, h2]

/-- C1 counterexample: a titled folder nested under an untitled folder is a
node of the host tree with no URL and a non-empty title, yet the flatten
emits no record for it — `processNodes` never descends into a node that fails
the folder test, so the whole subtree is dropped. -/
theorem C1_cex :
    (BNode.node "2" "A" none []).url = none ∧
    (BNode.node "2" "A" none []).title ≠ "" ∧
    processNodes [BNode.node "1" "" none [BNode.node "2" "A" none []]] 0 = [] := by
  refine ⟨rfl, by decide, ?_⟩
  simp +decide [processNodes, processSorted, List.mergeSort, nodeLe, BNode.isFolderish,
    BNode.children, BNode.id, BNode.title, BNode.url, jsTruthy]

/-- C1 (amended): over a host tree with pairwise-distinct identifiers, the
flatten emits exactly one `FolderRecord` for every node that has no URL and a
non-empty title *and all of whose ancestors below the synthetic root also
pass that folder test* — i.e. for every folder node of a reached sibling
context, at that context's depth (the root's children are at depth 0, the
root itself excluded); nodes under a pruned (URL-bearing or untitled) node
are not emitted.  "Exactly one" holds because the emitted record ids are
pairwise distinct. -/
theorem C1_flatten_characterization (t : List BNode)
    (hids : (forestIds t).Nodup) :
    (∀ r : FolderRecord, r ∈ processNodes t 0 ↔
      ∃ C d n, CtxAt t C d ∧ n ∈ C ∧ n.isFolderish = true ∧
        r = ⟨n.id, n.title, d⟩) ∧
    ((processNodes t 0).map FolderRecord.id).Nodup := by
  constructor
  · intro r
    constructor
    · intro hr
      obtain ⟨C', dd, n, hctx, hn, hf, hre⟩ :=
        mem_processNodes_of (forestSize t) t 0 r (le_refl _) hr
      exact ⟨C', dd, n, hctx, hn, hf, by simpa using hre⟩
    · rintro ⟨C, d, n, hctx, hn, hf, rfl⟩
      have h := rec_mem_processNodes hctx hn hf 0
      simpa using h
  · exact processNodes_ids_nodup hids

/-- C1 witness. -/
theorem C1_flatten_characterization_witness :
    (forestIds [BNode.node "1" "A" none [BNode.node "2" "B" none []]]).Nodup ∧
    ((∀ r : FolderRecord,
        r ∈ processNodes [BNode.node "1" "A" none [BNode.node "2" "B" none []]] 0 ↔
        ∃ C d n, CtxAt [BNode.node "1" "A" none [BNode.node "2" "B" none []]] C d ∧
          n ∈ C ∧ n.isFolderish = true ∧ r = ⟨n.id, n.title, d⟩) ∧
      ((processNodes [BNode.node "1" "A" none [BNode.node "2" "B" none []]] 0).map
        FolderRecord.id).Nodup) :=
  ⟨by simp only [forestIds, nodeIds]; decide,
    C1_flatten_characterization [BNode.node "1" "A" none [BNode.node "2" "B" none []]]
      (by simp only [forestIds, nodeIds]; decide)⟩

/-- C2 counterexample: two sibling folders with the same title tie under the
comparator, so the stable sort keeps the host-returned order; the flattened
output therefore differs between the two host orders (permutation invariance
fails), and in the second output the first-listed node does not precede the
other even though the comparison is `≤ 0` (the "iff ≤ 0" biconditional
fails). -/
theorem C2_cex :
    processNodes [BNode.node "1" "X" none [], BNode.node "2" "X" none []] 0 =
      [⟨"1", "X", 0⟩, ⟨"2", "X", 0⟩] ∧
    processNodes [BNode.node "2" "X" none [], BNode.node "1" "X" none []] 0 =
      [⟨"2", "X", 0⟩, ⟨"1", "X", 0⟩] ∧
    localeCompare "X" "X" ≤ 0 := by
  refine ⟨?_, ?_, by decide⟩ <;>
    simp +decide [processNodes, processSorted, List.mergeSort, nodeLe, BNode.isFolderish,
      BNode.children, BNode.id, BNode.title, BNode.url, jsTruthy]

/-- C2 (amended): for two sibling folder nodes `A`, `B` (with distinct ids,
in a tree with pairwise-distinct ids) of a reached sibling context, `A`'s
record precedes `B`'s record in the flattened list iff the title comparison is
strictly negative, or it is zero and `A` precedes `B` in the host-returned
child order (the sort is stable).  Sibling order is therefore
permutation-independent only for siblings whose titles do not tie. -/
theorem C2_sibling_order (t C : List BNode) (d : Nat) (a b : BNode)
    (hids : (forestIds t).Nodup) (hctx : CtxAt t C d) (ha : a ∈ C) (hb : b ∈ C)
    (hfa : a.isFolderish = true) (hfb : b.isFolderish = true)
    (hne : a.id ≠ b.id) :
    ([⟨a.id, a.title, d⟩, ⟨b.id, b.title, d⟩] <+ processNodes t 0) ↔
      (localeCompare a.title b.title < 0 ∨
        (localeCompare a.title b.title = 0 ∧ [a, b] <+ C)) := by
  have hCnd : C.Nodup := ctxAt_nodup hids hctx
  have hne' : a ≠ b := fun he => hne (congrArg BNode.id he)
  have houtnd : (processNodes t 0).Nodup :=
    (processNodes_ids_nodup hids).of_map _
  have hrne : (⟨a.id, a.title, d⟩ : FolderRecord) ≠ ⟨b.id, b.title, d⟩ := by
    intro he
    exact hne (congrArg FolderRecord.id he)
  have hlift : ∀ x y : BNode, x.isFolderish = true → y.isFolderish = true →
      [x, y] <+ C.mergeSort nodeLe →
      [⟨x.id, x.title, d⟩, ⟨y.id, y.title, d⟩] <+ processNodes t 0 := by
    intro x y hfx hfy hxy
    have h1 : [x, y].map (fun n => FolderRecord.mk n.id n.title d) <+
        processSorted (C.mergeSort nodeLe) d :=
      map_sublist_processSorted hxy (by
        intro n hn
        rcases List.mem_cons.mp hn with rfl | hn'
        · exact hfx
        · rw [List.mem_singleton.mp hn']
          exact hfy)
    have h2 : processNodes C d = processSorted (C.mergeSort nodeLe) d := by
      rw [processNodes]
    have h3 := ctxAt_processNodes_inside hctx 0
    rw [Nat.zero_add] at h3
    have h4 : [(⟨x.id, x.title, d⟩ : FolderRecord), ⟨y.id, y.title, d⟩] <+
        processNodes C d := by
      rw [h2]
      simpa using h1
    exact h4.trans h3.sublist
  constructor
  · intro h
    by_contra hrhs
    have hr' : localeCompare b.title a.title < 0 ∨
        (localeCompare b.title a.title = 0 ∧ [b, a] <+ C) := by
      rw [not_or] at hrhs
      rcases lt_trichotomy (localeCompare a.title b.title) 0 with hlt | heq | hgt
      · exact absurd hlt hrhs.1
      · have hba : [b, a] <+ C := by
          rcases pair_sublist_total ha hb hne' with h1 | h1
          · exact absurd ⟨heq, h1⟩ hrhs.2
          · exact h1
        have heq' : localeCompare b.title a.title = 0 :=
          localeCompare_zero_iff.mpr (localeCompare_zero_iff.mp heq).symm
        exact Or.inr ⟨heq', hba⟩
      · left
        rw [localeCompare_neg_iff]
        exact localeCompare_pos_iff.mp hgt
    have hba_sorted : [b, a] <+ C.mergeSort nodeLe :=
      (mergeSort_pair_iff hCnd hb ha (Ne.symm hne')).mpr hr'
    have hba_out := hlift b a hfb hfa hba_sorted
    exact pair_sublist_asymm houtnd hrne h hba_out
  · intro h
    have hab_sorted : [a, b] <+ C.mergeSort nodeLe :=
      (mergeSort_pair_iff hCnd ha hb hne').mpr h
    exact hlift a b hfa hfb hab_sorted

/-- C2 witness. -/
theorem C2_sibling_order_witness :
    ((forestIds [BNode.node "1" "b" none [], BNode.node "2" "a" none []]).Nodup ∧
      CtxAt [BNode.node "1" "b" none [], BNode.node "2" "a" none []]
        [BNode.node "1" "b" none [], BNode.node "2" "a" none []] 0 ∧
      BNode.node "2" "a" none [] ∈
        [BNode.node "1" "b" none [], BNode.node "2" "a" none []] ∧
      (BNode.node "2" "a" none []).isFolderish = true ∧
      (BNode.node "2" "a" none []).id ≠ (BNode.node "1" "b" none []).id) ∧
    (([⟨(BNode.node "2" "a" none []).id, (BNode.node "2" "a" none []).title, 0⟩,
        ⟨(BNode.node "1" "b" none []).id, (BNode.node "1" "b" none []).title, 0⟩] <+
      processNodes [BNode.node "1" "b" none [], BNode.node "2" "a" none []] 0) ↔
      (localeCompare (BNode.node "2" "a" none []).title
          (BNode.node "1" "b" none []).title < 0 ∨
        (localeCompare (BNode.node "2" "a" none []).title
            (BNode.node "1" "b" none []).title = 0 ∧
          [BNode.node "2" "a" none [], BNode.node "1" "b" none []] <+
            [BNode.node "1" "b" none [], BNode.node "2" "a" none []]))) :=
  ⟨⟨by simp only [forestIds, nodeIds]; decide, CtxAt.root _, by simp, by decide, by decide⟩,
    C2_sibling_order [BNode.node "1" "b" none [], BNode.node "2" "a" none []]
      [BNode.node "1" "b" none [], BNode.node "2" "a" none []] 0
      (BNode.node "2" "a" none []) (BNode.node "1" "b" none [])
      (by simp only [forestIds, nodeIds]; decide) (CtxAt.root _)
      (by simp) (by simp) (by decide) (by decide) (by decide)⟩

end BookmarkManager
